import Mathlib

/-!
Shallow embedding of the yupsh/xargs batching-and-dispatch engine.

The repository has a primary engine (`xargs.go`: `Execute`, `readArgs`,
`groupArgs`, `executeParallel`) and a legacy line-based variant
(`command.go`: `Executor`).  Configuration lives in `opt.go` (`Flags`).

Go strings are modelled as Lean `String`; `len` on a Go string is the
UTF-8 byte count, modelled by `strLen`.  The Go standard-library string
operations used by the source (`strings.Split`, `strings.TrimSpace`,
`strings.Fields`, `strings.Join`, `strings.ReplaceAll`) are modelled by
structurally recursive functions below so that concrete inputs evaluate
inside the kernel.
-/

namespace Xargs

/-- Configuration record, from `opt.go` (`Flags`).  Go `int` fields are
modelled as `Int` (the code only compares them with `> 0`; no overflow
is relevant to any property proved here). -/
structure Flags where
  maxArgs : Int
  maxLines : Int
  maxChars : Int
  maxProcs : Int
  delimiter : String
  replaceStr : String
  nullDelim : Bool
  print : Bool
  interactive : Bool
  noRunEmpty : Bool
  verbose : Bool
deriving DecidableEq

/-- The zero value of the `Flags` struct (all Go zero values). -/
def defaultFlags : Flags :=
  { maxArgs := 0, maxLines := 0, maxChars := 0, maxProcs := 0,
    delimiter := "", replaceStr := "", nullDelim := false, print := false,
    interactive := false, noRunEmpty := false, verbose := false }

/-- Default filling performed by the `Xargs` constructor
(`xargs.go` lines 38-47): zero-valued limits are replaced by defaults. -/
def applyDefaults (f : Flags) : Flags :=
  let f1 := if f.maxArgs = 0 then { f with maxArgs := 256 } else f
  let f2 := if f1.maxChars = 0 then { f1 with maxChars := 4096 } else f1
  if f2.maxProcs = 0 then { f2 with maxProcs := 1 } else f2

/-- Go `len(s)` on a string: the UTF-8 byte size. -/
def strLen (s : String) : Nat := s.utf8ByteSize

/-- `sep` is an initial segment of `s` (helper for the split model). -/
def leadsWith : List Char → List Char → Bool
  | [], _ => true
  | _ :: _, [] => false
  | a :: as, b :: bs => a = b && leadsWith as bs

/-- Core of the `strings.Split` model: scan `s`, cutting at each leftmost
non-overlapping occurrence of `sep`.  `fuel` bounds the recursion; it is
set to the length of the scanned list, which always suffices because each
step consumes at least one character. -/
def goSplitAux (sep : List Char) : Nat → List Char → List Char → List (List Char)
  | _, [], acc => [acc.reverse]
  | 0, s, acc => [acc.reverse ++ s]
  | fuel + 1, c :: cs, acc =>
    if sep ≠ [] ∧ leadsWith sep (c :: cs) then
      acc.reverse :: goSplitAux sep fuel ((c :: cs).drop sep.length) []
    else
      goSplitAux sep fuel cs (c :: acc)

/-- Model of Go `strings.Split(s, sep)` for non-empty `sep` (every use in
the source has a non-empty separator). -/
def goSplit (s sep : String) : List String :=
  (goSplitAux sep.data s.data.length s.data []).map (fun l => String.mk l)

/-- Model of Go `strings.TrimSpace`: drop whitespace from both ends. -/
def goTrim (s : String) : String :=
  String.mk (((s.data.dropWhile Char.isWhitespace).reverse.dropWhile
      Char.isWhitespace).reverse)

/-- Splits a character list at every whitespace character. -/
def splitWs : List Char → List Char → List (List Char)
  | [], acc => [acc.reverse]
  | c :: cs, acc =>
    if c.isWhitespace then acc.reverse :: splitWs cs []
    else splitWs cs (c :: acc)

/-- Model of Go `strings.Fields`: split on whitespace runs, no empties. -/
def goFields (s : String) : List String :=
  ((splitWs s.data []).filter (fun l => l ≠ [])).map (fun l => String.mk l)

/-- Model of Go `strings.Join(xs, sep)`. -/
def goJoin (xs : List String) (sep : String) : String :=
  match xs with
  | [] => ""
  | x :: rest => rest.foldl (fun acc y => acc ++ sep ++ y) x

/-- Model of Go `strings.ReplaceAll(s, old, new)` for non-empty `old`,
via the standard equivalence with `Join(Split(s, old), new)`. -/
def goReplaceAll (s old new : String) : String :=
  goJoin (goSplit s old) new

/-- Tokenizer, from `readArgs` (`xargs.go` lines 89-138).  The raw input
is modelled as a fully-materialized string; read errors and mid-read
cancellation are not modelled. -/
def readArgs (flags : Flags) (data : String) : List String :=
  if flags.nullDelim then
    (goSplit data "\x00").filter (fun part => part ≠ "")
  else if flags.delimiter ≠ "" then
    ((goSplit data flags.delimiter).filter (fun part => part ≠ "")).map goTrim
  else
    (goSplit data "\n").foldr
      (fun l acc =>
        let line := goTrim l
        (if line ≠ "" then goFields line else []) ++ acc) []

/-- Inner loop of `groupArgs` (`xargs.go` lines 151-165): starting from
`argsAdded` tokens and `charsUsed` characters already in the batch,
return the list of tokens taken from `rest` into the current batch. -/
def addLoop (flags : Flags) : List String → Nat → Int → List String
  | [], _, _ => []
  | arg :: rest, argsAdded, charsUsed =>
    if flags.maxArgs > 0 ∧ (argsAdded : Int) ≥ flags.maxArgs then []
    else if flags.maxChars > 0 ∧ charsUsed + (strLen arg : Int) + 1 > flags.maxChars then []
    else arg :: addLoop flags rest (argsAdded + 1) (charsUsed + (strLen arg : Int) + 1)

/-- Outer loop of `groupArgs` (`xargs.go` lines 143-175).  `fuel` bounds
the iteration count; `groupArgs` passes the token-list length, which
always suffices because every continuing iteration consumes at least one
token (`argsAdded == 0` breaks the loop). -/
def groupLoop (flags : Flags) (baseArgs : List String) : Nat → List String → List (List String)
  | _, [] => []
  | 0, _ :: _ => []
  | fuel + 1, remaining@(_ :: _) =>
    let added := addLoop flags remaining 0 0
    let cmdArgs := baseArgs ++ added
    let emitted :=
      if cmdArgs.length > baseArgs.length ∨ flags.noRunEmpty = false then [cmdArgs] else []
    if added.length = 0 then emitted
    else emitted ++ groupLoop flags baseArgs fuel (remaining.drop added.length)

/-- Batcher, from `groupArgs` (`xargs.go` lines 140-178). -/
def groupArgs (flags : Flags) (inputArgs baseArgs : List String) : List (List String) :=
  groupLoop flags baseArgs inputArgs.length inputArgs

/-- The input-token slice of a batch: the part after the base arguments. -/
def batchTokens (baseArgs : List String) (batch : List String) : List String :=
  batch.drop baseArgs.length

/-- Accumulated character count of a token list, as `groupArgs` counts it:
each token costs its length plus one separator character. -/
def charSum (tokens : List String) : Int :=
  (tokens.map (fun t => (strLen t : Int) + 1)).sum

/-- Errors surfaced by `Execute` and the dispatcher. -/
inductive XErr where
  | canceled
  | missingCommand
  | notFound (name : String)
  | cmdFailed (msg : String)
deriving DecidableEq

/-- Abstract behaviour of resolved commands and of the interactive
prompt, the two external collaborators of the dispatcher.  `run args`
gives the stdout text the command writes and its error, modelling
`factory(args...).Execute`; `confirm args` tells whether the interactive
prompt was answered `y`/`Y`. -/
structure CmdBehavior where
  run : List String → String × Option String
  confirm : List String → Bool

/-- One command invocation, from `executeCommand` (`xargs.go` lines
180-205).  Returns whether the command was actually invoked (the
interactive prompt may skip it), the stdout text written, and the error.
The `Print` flag only writes to the diagnostic stream, which this model
does not track. -/
def executeCommand (flags : Flags) (B : CmdBehavior) (args : List String) :
    Bool × String × Option XErr :=
  if flags.interactive = true ∧ B.confirm args = false then (false, "", none)
  else
    let r := B.run args
    (true, r.1, r.2.map XErr.cmdFailed)

/-- Whether the cancellation signal reads as raised at the `i`-th
dispatcher check.  The signal is monotone: once raised (from check
`k` on), it stays raised. -/
def cancelledAt (cancelFrom : Option Nat) (i : Nat) : Bool :=
  match cancelFrom with
  | none => false
  | some k => k ≤ i

/-- Result of the sequential dispatch loop. -/
structure SeqResult where
  /-- batches that passed the cancellation check (loop body entered) -/
  processed : List (List String)
  /-- batches whose command was actually invoked -/
  invoked : List (List String)
  /-- stdout text accumulated in order -/
  out : String
  err : Option XErr
deriving DecidableEq

/-- Sequential dispatch loop, from `executeParallel` (`xargs.go` lines
219-229): before each batch check cancellation; stop at the first
command error. `i` counts the cancellation checks performed so far. -/
def executeSeqLoop (flags : Flags) (B : CmdBehavior) (cancelFrom : Option Nat) :
    Nat → List (List String) → SeqResult
  | _, [] => { processed := [], invoked := [], out := "", err := none }
  | i, b :: rest =>
    if cancelledAt cancelFrom i then
      { processed := [], invoked := [], out := "", err := some XErr.canceled }
    else
      let r := executeCommand flags B b
      match r.2.2 with
      | some e =>
        { processed := [b], invoked := if r.1 then [b] else [], out := r.2.1,
          err := some e }
      | none =>
        let rec' := executeSeqLoop flags B cancelFrom (i + 1) rest
        { processed := b :: rec'.processed,
          invoked := (if r.1 then [b] else []) ++ rec'.invoked,
          out := r.2.1 ++ rec'.out, err := rec'.err }

/-- Outcome of `executeParallel`.  The parallel branch spawns worker
goroutines; its scheduling is not shallow-embeddable, so the model
records the exact inputs handed to the worker pool instead. -/
inductive DispatchResult where
  | seq (r : SeqResult)
  | par (maxProcs : Int) (cmdLines : List (List String))
deriving DecidableEq

/-- Dispatcher entry, from `executeParallel` (`xargs.go` lines 208-293):
zero batches return immediately; `maxProcs` is normalized to at least 1;
the sequential path is taken when `maxProcs == 1` or there is exactly
one batch. -/
def executeParallel (flags : Flags) (B : CmdBehavior) (cancelFrom : Option Nat)
    (cmdLines : List (List String)) : DispatchResult :=
  if cmdLines.length = 0 then
    DispatchResult.seq { processed := [], invoked := [], out := "", err := none }
  else
    let maxProcs := if flags.maxProcs ≤ 0 then 1 else flags.maxProcs
    if maxProcs = 1 ∨ cmdLines.length = 1 then
      DispatchResult.seq (executeSeqLoop flags B cancelFrom 0 cmdLines)
    else
      DispatchResult.par maxProcs cmdLines

/-- Overall outcome of a run of `Execute`. -/
inductive ExecResult where
  /-- failed before dispatch: start-of-run cancellation, missing command
  name, or unresolvable command name -/
  | earlyErr (e : XErr)
  /-- empty token list together with `NoRunEmpty`: return nil early -/
  | noRun
  /-- dispatched: token sequence, batches, and dispatch outcome -/
  | dispatched (tokens : List String) (cmdLines : List (List String))
      (d : DispatchResult)
deriving DecidableEq

/-- Top-level run, from `Execute` (`xargs.go` lines 51-87).  The command
registry is modelled by the list of registered names; the behaviour of
every resolved command is folded into `B`.  `cancelledAtStart` models the
context check at the top of `Execute`; `cancelFrom` models the signal as
observed by the dispatcher checks. -/
def Execute (flags : Flags) (positional : List String) (registry : List String)
    (B : CmdBehavior) (cancelledAtStart : Bool) (cancelFrom : Option Nat)
    (input : String) : ExecResult :=
  if cancelledAtStart then ExecResult.earlyErr XErr.canceled
  else
    match positional with
    | [] => ExecResult.earlyErr XErr.missingCommand
    | cmdName :: baseArgs =>
      if cmdName ∈ registry then
        let args := readArgs flags input
        if args.length = 0 ∧ flags.noRunEmpty = true then ExecResult.noRun
        else
          ExecResult.dispatched args (groupArgs flags args baseArgs)
            (executeParallel flags B cancelFrom (groupArgs flags args baseArgs))
      else ExecResult.earlyErr (XErr.notFound cmdName)

/-- Batches whose command was invoked, read off an `ExecResult`.  On the
paths that fail before dispatch nothing has been invoked; the parallel
branch is not modelled and contributes nothing here. -/
def execInvoked : ExecResult → List (List String)
  | ExecResult.earlyErr _ => []
  | ExecResult.noRun => []
  | ExecResult.dispatched _ _ (DispatchResult.seq r) => r.invoked
  | ExecResult.dispatched _ _ (DispatchResult.par _ _) => []

/-- Stdout text of a run.  Nothing is written to stdout on the paths
that fail before dispatch. -/
def execOut : ExecResult → String
  | ExecResult.earlyErr _ => ""
  | ExecResult.noRun => ""
  | ExecResult.dispatched _ _ (DispatchResult.seq r) => r.out
  | ExecResult.dispatched _ _ (DispatchResult.par _ _) => ""

/-- Error of a run. -/
def execErr : ExecResult → Option XErr
  | ExecResult.earlyErr e => some e
  | ExecResult.noRun => none
  | ExecResult.dispatched _ _ (DispatchResult.seq r) => r.err
  | ExecResult.dispatched _ _ (DispatchResult.par _ _) => none

end Xargs

namespace XargsLine

/-!  The legacy line-based variant (`command.go`).  Per input line it
splits the line into tokens, then builds one command-argument group:
with a non-empty `ReplaceStr` every occurrence of the placeholder in
every fixed argument is replaced by the space-joined tokens and the
tokens are not appended; otherwise the tokens are appended. -/

open Xargs

/-- Per-line token split, from `command.go` lines 48-55 (note: the
`Delimiter` branch is checked before `NullDelim`, unlike `xargs.go`). -/
def lineInputArgs (flags : Flags) (line : String) : List String :=
  if flags.delimiter ≠ "" then goSplit line flags.delimiter
  else if flags.nullDelim then goSplit line "\x00"
  else goFields line

/-- Command-argument construction for one line, from `command.go` lines
57-67. -/
def buildCmdArgs (flags : Flags) (fixedArgs inputArgs : List String) : List String :=
  if flags.replaceStr ≠ "" then
    fixedArgs.map (fun arg => goReplaceAll arg flags.replaceStr (goJoin inputArgs " "))
  else fixedArgs ++ inputArgs

end XargsLine

namespace Xargs

/-! ### Structural lemmas about the batcher -/

/-- The tokens taken by the inner loop form a prefix of the remaining
tokens: appending the corresponding drop restores the list. -/
theorem addLoop_append (flags : Flags) :
    ∀ (rest : List String) (a : Nat) (c : Int),
      addLoop flags rest a c ++ rest.drop (addLoop flags rest a c).length = rest
  | [], _, _ => rfl
  | arg :: rest, a, c => by
    by_cases h1 : flags.maxArgs > 0 ∧ (a : Int) ≥ flags.maxArgs
    · simp [addLoop, h1]
    · by_cases h2 : flags.maxChars > 0 ∧ c + (strLen arg : Int) + 1 > flags.maxChars
      · simp [addLoop, h1, h2]
      · have ih := addLoop_append flags rest (a + 1) (c + (strLen arg : Int) + 1)
        simp [addLoop, h1, h2, ih]

/-- On a fresh batch, a token whose cost fits the character budget (or a
disabled budget) is always taken: the inner loop cannot return empty. -/
theorem addLoop_cons_of_fits (flags : Flags) (arg : String) (rest : List String)
    (h : flags.maxChars ≤ 0 ∨ (strLen arg : Int) + 1 ≤ flags.maxChars) :
    addLoop flags (arg :: rest) 0 0 =
      arg :: addLoop flags rest 1 ((strLen arg : Int) + 1) := by
  have h1 : ¬(flags.maxArgs > 0 ∧ ((0 : Nat) : Int) ≥ flags.maxArgs) := by
    rintro ⟨hp, hge⟩; simp at hge; omega
  have h2 : ¬(flags.maxChars > 0 ∧ (0 : Int) + (strLen arg : Int) + 1 > flags.maxChars) := by
    rcases h with h | h
    · rintro ⟨hp, _⟩; omega
    · rintro ⟨_, hgt⟩; omega
  simp only [addLoop, if_neg h1, if_neg h2]
  norm_num

/-- Every batch produced by the grouping loop is the base arguments
followed by an inner-loop result on some remaining-token list. -/
theorem groupLoop_mem (flags : Flags) (baseArgs : List String) :
    ∀ (fuel : Nat) (remaining : List String) (b : List String),
      b ∈ groupLoop flags baseArgs fuel remaining →
      ∃ rest : List String, b = baseArgs ++ addLoop flags rest 0 0
  | fuel, [], b => by cases fuel <;> simp [groupLoop]
  | 0, r :: rs, b => by simp [groupLoop]
  | fuel + 1, r :: rs, b => by
    intro hb
    simp only [groupLoop] at hb
    by_cases hz : (addLoop flags (r :: rs) 0 0).length = 0
    · rw [if_pos hz] at hb
      rcases (by split at hb <;> simp_all :
          b = baseArgs ++ addLoop flags (r :: rs) 0 0) with rfl
      exact ⟨r :: rs, rfl⟩
    · rw [if_neg hz] at hb
      rcases List.mem_append.mp hb with hmem | hmem
      · have hb' : b = baseArgs ++ addLoop flags (r :: rs) 0 0 := by
          split at hmem <;> simp_all
        exact ⟨r :: rs, hb'⟩
      · exact groupLoop_mem flags baseArgs fuel ((r :: rs).drop
          (addLoop flags (r :: rs) 0 0).length) b hmem

/-! ### C1: token reconstruction -/

/-- Core reconstruction: if every remaining token fits a fresh batch,
the batches' token slices concatenate back to the remaining tokens. -/
theorem groupLoop_reconstructs (flags : Flags) (baseArgs : List String) :
    ∀ (fuel : Nat) (remaining : List String), remaining.length ≤ fuel →
      (flags.maxChars ≤ 0 ∨ ∀ t ∈ remaining, (strLen t : Int) + 1 ≤ flags.maxChars) →
      ((groupLoop flags baseArgs fuel remaining).map (batchTokens baseArgs)).flatten = remaining
  | fuel, [], _, _ => by cases fuel <;> simp [groupLoop]
  | 0, r :: rs, hlen, _ => by simp at hlen
  | fuel + 1, r :: rs, hlen, hfit => by
    have hfit1 : flags.maxChars ≤ 0 ∨ (strLen r : Int) + 1 ≤ flags.maxChars := by
      rcases hfit with h | h
      · exact Or.inl h
      · exact Or.inr (h r (List.mem_cons_self r rs))
    have hcons := addLoop_cons_of_fits flags r rs hfit1
    have hne : (addLoop flags (r :: rs) 0 0).length ≠ 0 := by
      rw [hcons]; simp
    have happ := addLoop_append flags (r :: rs) 0 0
    have hlen' : ((r :: rs).drop (addLoop flags (r :: rs) 0 0).length).length ≤ fuel := by
      have hpos : 0 < (addLoop flags (r :: rs) 0 0).length := Nat.pos_of_ne_zero hne
      rw [List.length_drop]
      simp only [List.length_cons] at hlen ⊢
      omega
    have hfit' : flags.maxChars ≤ 0 ∨
        ∀ t ∈ (r :: rs).drop (addLoop flags (r :: rs) 0 0).length,
          (strLen t : Int) + 1 ≤ flags.maxChars := by
      rcases hfit with h | h
      · exact Or.inl h
      · exact Or.inr fun t ht => h t (List.mem_of_mem_drop ht)
    have ih := groupLoop_reconstructs flags baseArgs fuel
      ((r :: rs).drop (addLoop flags (r :: rs) 0 0).length) hlen' hfit'
    have hemit : (baseArgs ++ addLoop flags (r :: rs) 0 0).length > baseArgs.length ∨
        flags.noRunEmpty = false := by
      left
      simp only [List.length_append]
      omega
    simp only [groupLoop]
    rw [if_neg hne, if_pos hemit]
    simp only [List.singleton_append, List.map_cons, List.flatten_cons, batchTokens,
      List.drop_left]
    rw [ih]
    exact happ

/-- C1 (amended): whenever the character budget is disabled or every
token fits a fresh batch (`len(t)+1 ≤ maxChars`), concatenating the
input-token slices of all batches, in batch order then intra-batch
order, reconstructs the token sequence exactly. -/
theorem groupArgs_reconstructs (flags : Flags) (tokens baseArgs : List String)
    (h : flags.maxChars ≤ 0 ∨ ∀ t ∈ tokens, (strLen t : Int) + 1 ≤ flags.maxChars) :
    ((groupArgs flags tokens baseArgs).map (batchTokens baseArgs)).flatten = tokens :=
  groupLoop_reconstructs flags baseArgs tokens.length tokens (Nat.le_refl _) h

/-- C1 witness: a concrete run of the amended reconstruction theorem. -/
theorem groupArgs_reconstructs_witness :
    ((groupArgs { defaultFlags with maxArgs := 2, maxChars := 5 } ["a", "bb", "c"]
        ["echo"]).map (batchTokens ["echo"])).flatten = ["a", "bb", "c"] :=
  groupArgs_reconstructs { defaultFlags with maxArgs := 2, maxChars := 5 }
    ["a", "bb", "c"] ["echo"] (Or.inr (by decide))

/-- C1 counterexample: with `maxChars := 1` the single token `"ab"` fits
no fresh batch, the grouping loop stops, and the token is lost: the
concatenated slices are empty rather than the original sequence. -/
theorem groupArgs_loses_tokens :
    groupArgs { defaultFlags with maxChars := 1 } ["ab"] [] = [[]] ∧
      ((groupArgs { defaultFlags with maxChars := 1 } ["ab"] []).map
        (batchTokens [])).flatten ≠ ["ab"] := by
  constructor
  · decide
  · decide

/-! ### C2: oversized tokens -/

/-- A token whose cost exceeds the (positive) character budget is never
taken by the inner loop, from any starting state with non-negative
accumulated characters. -/
theorem addLoop_not_mem_oversized (flags : Flags) (t : String)
    (hc : flags.maxChars > 0) (ht : (strLen t : Int) + 1 > flags.maxChars) :
    ∀ (rest : List String) (a : Nat) (c : Int), 0 ≤ c → t ∉ addLoop flags rest a c
  | [], _, _, _ => by simp [addLoop]
  | arg :: rest, a, c, hc0 => by
    by_cases h1 : flags.maxArgs > 0 ∧ (a : Int) ≥ flags.maxArgs
    · simp [addLoop, h1]
    · by_cases h2 : flags.maxChars > 0 ∧ c + (strLen arg : Int) + 1 > flags.maxChars
      · simp [addLoop, h1, h2]
      · have harg : c + (strLen arg : Int) + 1 ≤ flags.maxChars := by
          rcases not_and_or.mp h2 with h | h
          · exact absurd hc h
          · omega
        have hargt : arg ≠ t := by
          intro he
          rw [he] at harg
          omega
        have ih := addLoop_not_mem_oversized flags t hc ht rest (a + 1)
          (c + (strLen arg : Int) + 1) (by omega)
        simp [addLoop, h1, h2, ih, Ne.symm hargt]

/-- C2 (amended): a token `t` with `len(t)+1 > maxChars` (in particular
any token whose length alone exceeds the positive character budget) is
never placed into any batch's input-token slice: the grouping loop stops
at it and drops it, rather than emitting it in its own batch. -/
theorem oversized_token_never_batched (flags : Flags) (tokens baseArgs : List String)
    (t : String) (hc : flags.maxChars > 0)
    (ht : (strLen t : Int) + 1 > flags.maxChars) :
    ∀ b ∈ groupArgs flags tokens baseArgs, t ∉ batchTokens baseArgs b := by
  intro b hb
  obtain ⟨rest, rfl⟩ := groupLoop_mem flags baseArgs tokens.length tokens b hb
  rw [batchTokens, List.drop_left]
  exact addLoop_not_mem_oversized flags t hc ht rest 0 0 le_rfl

/-- C2 witness: in a concrete run with `maxChars := 5`, the oversized
token never appears in the slice of the batch `["abc"]`, which is a
batch of that run. -/
theorem oversized_token_never_batched_witness :
    "toolongtoken" ∉ batchTokens []
      (["abc"] : List String) :=
  oversized_token_never_batched { defaultFlags with maxChars := 5 }
    ["abc", "toolongtoken"] [] "toolongtoken" (by decide) (by decide)
    ["abc"] (by decide)

/-- C2 counterexample: a token of length 6 with `maxChars := 5` and
`NoRunEmpty` set is not placed into its own batch — the grouping emits
no batch at all and the token is dropped. -/
theorem oversized_token_dropped_cex :
    groupArgs { defaultFlags with maxChars := 5, noRunEmpty := true }
      ["abcdef"] ["echo"] = [] := by decide

/-! ### C4: per-batch limits -/

/-- Count bound for the inner loop: starting from `a` tokens already in
the batch, at most `maxArgs` tokens are ever accumulated. -/
theorem addLoop_length_le (flags : Flags) (ha : flags.maxArgs > 0) :
    ∀ (rest : List String) (a : Nat) (c : Int), (a : Int) ≤ flags.maxArgs →
      (a : Int) + ((addLoop flags rest a c).length : Int) ≤ flags.maxArgs
  | [], a, c, hale => by simp [addLoop]; omega
  | arg :: rest, a, c, hale => by
    by_cases h1 : flags.maxArgs > 0 ∧ (a : Int) ≥ flags.maxArgs
    · simp [addLoop, h1]; omega
    · have halt : (a : Int) < flags.maxArgs := by
        rcases not_and_or.mp h1 with h | h
        · exact absurd ha h
        · omega
      by_cases h2 : flags.maxChars > 0 ∧ c + (strLen arg : Int) + 1 > flags.maxChars
      · simp [addLoop, h1, h2]; omega
      · have ih := addLoop_length_le flags ha rest (a + 1)
          (c + (strLen arg : Int) + 1) (by push_cast; omega)
        simp only [addLoop, if_neg h1, if_neg h2, List.length_cons]
        push_cast at ih ⊢
        omega

/-- Character bound for the inner loop: starting from `c ≤ maxChars`
accumulated characters, the accumulated character count never passes
`maxChars`. -/
theorem addLoop_charSum_le (flags : Flags) (hc : flags.maxChars > 0) :
    ∀ (rest : List String) (a : Nat) (c : Int), c ≤ flags.maxChars →
      c + charSum (addLoop flags rest a c) ≤ flags.maxChars
  | [], a, c, hcle => by simp [addLoop, charSum]; omega
  | arg :: rest, a, c, hcle => by
    by_cases h1 : flags.maxArgs > 0 ∧ (a : Int) ≥ flags.maxArgs
    · simp [addLoop, h1, charSum]; omega
    · by_cases h2 : flags.maxChars > 0 ∧ c + (strLen arg : Int) + 1 > flags.maxChars
      · simp [addLoop, h1, h2, charSum]; omega
      · have hfits : c + (strLen arg : Int) + 1 ≤ flags.maxChars := by
          rcases not_and_or.mp h2 with h | h
          · exact absurd hc h
          · omega
        have ih := addLoop_charSum_le flags hc rest (a + 1)
          (c + (strLen arg : Int) + 1) hfits
        simp only [addLoop, if_neg h1, if_neg h2]
        have hform : charSum (arg :: addLoop flags rest (a + 1)
            (c + (strLen arg : Int) + 1)) = ((strLen arg : Int) + 1) +
            charSum (addLoop flags rest (a + 1) (c + (strLen arg : Int) + 1)) := by
          simp [charSum]
        rw [hform]
        omega

/-- C4: with positive limits, every emitted batch holds at most
`maxArgs` input tokens, and its accumulated character count (length
plus one separator per token) is at most `maxChars` — the single
oversized-token exception allowed by the claim never even occurs. -/
theorem batch_limits (flags : Flags) (tokens baseArgs b : List String)
    (ha : flags.maxArgs > 0) (hc : flags.maxChars > 0)
    (hb : b ∈ groupArgs flags tokens baseArgs) :
    (((batchTokens baseArgs b).length : Int) ≤ flags.maxArgs ∧
      (charSum (batchTokens baseArgs b) ≤ flags.maxChars ∨
        ((batchTokens baseArgs b).length = 1 ∧
          charSum (batchTokens baseArgs b) > flags.maxChars))) := by
  obtain ⟨rest, rfl⟩ := groupLoop_mem flags baseArgs tokens.length tokens b hb
  rw [batchTokens, List.drop_left]
  constructor
  · have := addLoop_length_le flags ha rest 0 0 (by omega)
    push_cast at this
    omega
  · left
    have := addLoop_charSum_le flags hc rest 0 0 (by omega)
    omega

/-- C4 witness: concrete limits `maxArgs := 2`, `maxChars := 100` with a
concrete batch of a concrete run. -/
theorem batch_limits_witness :
    (((batchTokens ["echo"] ["echo", "a", "b"]).length : Int) ≤
        ({ defaultFlags with maxArgs := 2, maxChars := 100 } : Flags).maxArgs ∧
      (charSum (batchTokens ["echo"] ["echo", "a", "b"]) ≤
          ({ defaultFlags with maxArgs := 2, maxChars := 100 } : Flags).maxChars ∨
        ((batchTokens ["echo"] ["echo", "a", "b"]).length = 1 ∧
          charSum (batchTokens ["echo"] ["echo", "a", "b"]) >
            ({ defaultFlags with maxArgs := 2, maxChars := 100 } : Flags).maxChars))) :=
  batch_limits { defaultFlags with maxArgs := 2, maxChars := 100 }
    ["a", "b", "c"] ["echo"] ["echo", "a", "b"] (by decide) (by decide) (by decide)

/-! ### Congruence: which configuration fields each stage reads -/

/-- The inner grouping loop reads only `maxArgs` and `maxChars`. -/
theorem addLoop_congr (f g : Flags) (hA : f.maxArgs = g.maxArgs)
    (hC : f.maxChars = g.maxChars) :
    ∀ (rest : List String) (a : Nat) (c : Int), addLoop f rest a c = addLoop g rest a c
  | [], _, _ => rfl
  | arg :: rest, a, c => by
    have ih := addLoop_congr f g hA hC rest (a + 1) (c + (strLen arg : Int) + 1)
    simp only [addLoop, hA, hC, ih]

/-- The outer grouping loop reads only `maxArgs`, `maxChars` and
`noRunEmpty`. -/
theorem groupLoop_congr (f g : Flags) (baseArgs : List String)
    (hA : f.maxArgs = g.maxArgs) (hC : f.maxChars = g.maxChars)
    (hN : f.noRunEmpty = g.noRunEmpty) :
    ∀ (fuel : Nat) (remaining : List String),
      groupLoop f baseArgs fuel remaining = groupLoop g baseArgs fuel remaining
  | fuel, [] => by cases fuel <;> rfl
  | 0, r :: rs => rfl
  | fuel + 1, r :: rs => by
    have hadd := addLoop_congr f g hA hC (r :: rs) 0 0
    have ih := groupLoop_congr f g baseArgs hA hC hN fuel
      ((r :: rs).drop (addLoop g (r :: rs) 0 0).length)
    simp only [groupLoop, hadd, hN, ih]

/-- The batcher reads only `maxArgs`, `maxChars` and `noRunEmpty`. -/
theorem groupArgs_congr (f g : Flags) (hA : f.maxArgs = g.maxArgs)
    (hC : f.maxChars = g.maxChars) (hN : f.noRunEmpty = g.noRunEmpty)
    (tokens baseArgs : List String) :
    groupArgs f tokens baseArgs = groupArgs g tokens baseArgs :=
  groupLoop_congr f g baseArgs hA hC hN tokens.length tokens

/-- The tokenizer reads only `nullDelim` and `delimiter`. -/
theorem readArgs_congr (f g : Flags) (hND : f.nullDelim = g.nullDelim)
    (hD : f.delimiter = g.delimiter) (data : String) :
    readArgs f data = readArgs g data := by
  simp only [readArgs, hND, hD]

/-- A single invocation reads only `interactive` (besides diagnostics). -/
theorem executeCommand_congr (f g : Flags) (B : CmdBehavior) (args : List String)
    (hI : f.interactive = g.interactive) :
    executeCommand f B args = executeCommand g B args := by
  simp only [executeCommand, hI]

/-- The sequential dispatch loop reads only `interactive`. -/
theorem executeSeqLoop_congr (f g : Flags) (B : CmdBehavior) (cancelFrom : Option Nat)
    (hI : f.interactive = g.interactive) :
    ∀ (i : Nat) (bs : List (List String)),
      executeSeqLoop f B cancelFrom i bs = executeSeqLoop g B cancelFrom i bs
  | _, [] => rfl
  | i, b :: rest => by
    have hec := executeCommand_congr f g B b hI
    have ih := executeSeqLoop_congr f g B cancelFrom hI (i + 1) rest
    simp only [executeSeqLoop, hec, ih]

/-- The dispatcher reads only `maxProcs` and `interactive`. -/
theorem executeParallel_congr (f g : Flags) (B : CmdBehavior) (cancelFrom : Option Nat)
    (cmdLines : List (List String)) (hP : f.maxProcs = g.maxProcs)
    (hI : f.interactive = g.interactive) :
    executeParallel f B cancelFrom cmdLines = executeParallel g B cancelFrom cmdLines := by
  have hloop := executeSeqLoop_congr f g B cancelFrom hI 0 cmdLines
  simp only [executeParallel, hP, hloop]

/-- A full run reads only `maxArgs`, `maxChars`, `maxProcs`,
`delimiter`, `nullDelim`, `interactive` and `noRunEmpty`: in particular
neither `maxLines` nor `replaceStr` can influence it. -/
theorem Execute_congr (f g : Flags) (positional registry : List String)
    (B : CmdBehavior) (cancelledAtStart : Bool) (cancelFrom : Option Nat)
    (input : String) (hA : f.maxArgs = g.maxArgs) (hC : f.maxChars = g.maxChars)
    (hP : f.maxProcs = g.maxProcs) (hD : f.delimiter = g.delimiter)
    (hND : f.nullDelim = g.nullDelim) (hI : f.interactive = g.interactive)
    (hN : f.noRunEmpty = g.noRunEmpty) :
    Execute f positional registry B cancelledAtStart cancelFrom input =
      Execute g positional registry B cancelledAtStart cancelFrom input := by
  cases positional with
  | nil => simp only [Execute]
  | cons cmdName baseArgs =>
    have hra := readArgs_congr f g hND hD input
    have hga := groupArgs_congr f g hA hC hN (readArgs g input) baseArgs
    have hep := executeParallel_congr f g B cancelFrom
      (groupArgs g (readArgs g input) baseArgs) hP hI
    simp only [Execute, hra, hga, hN, hep]

/-! ### C10: MaxLines is dead configuration -/

/-- C10: `MaxLines` has no effect on behaviour — two configurations
differing only in `maxLines` produce identical run results (same token
sequence, same batches, same dispatch outcome, outputs and error). -/
theorem maxLines_no_effect (flags : Flags) (m1 m2 : Int)
    (positional registry : List String) (B : CmdBehavior)
    (cancelledAtStart : Bool) (cancelFrom : Option Nat) (input : String) :
    Execute { flags with maxLines := m1 } positional registry B cancelledAtStart
        cancelFrom input =
      Execute { flags with maxLines := m2 } positional registry B cancelledAtStart
        cancelFrom input :=
  Execute_congr { flags with maxLines := m1 } { flags with maxLines := m2 }
    positional registry B cancelledAtStart cancelFrom input rfl rfl rfl rfl rfl rfl rfl

/-! ### C3: empty token sequence -/

/-- C3 (amended): an empty token sequence yields zero batches from the
batcher regardless of `NoRunEmpty`; and with `NoRunEmpty` set the whole
run returns early with no error and zero command invocations. -/
theorem empty_input_behavior (flags : Flags) (baseArgs : List String)
    (cmdName : String) (registry : List String) (B : CmdBehavior)
    (cancelFrom : Option Nat) (input : String) (hreg : cmdName ∈ registry)
    (hskip : flags.noRunEmpty = true) (hempty : readArgs flags input = []) :
    groupArgs flags [] baseArgs = [] ∧
      Execute flags (cmdName :: baseArgs) registry B false cancelFrom input =
        ExecResult.noRun ∧
      execErr (Execute flags (cmdName :: baseArgs) registry B false cancelFrom
        input) = none ∧
      execInvoked (Execute flags (cmdName :: baseArgs) registry B false cancelFrom
        input) = [] := by
  have hrun : Execute flags (cmdName :: baseArgs) registry B false cancelFrom input =
      ExecResult.noRun := by
    simp [Execute, hreg, hempty, hskip]
  exact ⟨rfl, hrun, by rw [hrun]; rfl, by rw [hrun]; rfl⟩

/-- C3 witness: a concrete empty-input run with `NoRunEmpty` set. -/
theorem empty_input_behavior_witness :
    groupArgs { defaultFlags with noRunEmpty := true } [] ["hello"] = [] ∧
      Execute { defaultFlags with noRunEmpty := true } ["echo", "hello"] ["echo"]
        { run := fun _ => ("", none), confirm := fun _ => true } false none "" =
        ExecResult.noRun ∧
      execErr (Execute { defaultFlags with noRunEmpty := true } ["echo", "hello"]
        ["echo"] { run := fun _ => ("", none), confirm := fun _ => true } false none
        "") = none ∧
      execInvoked (Execute { defaultFlags with noRunEmpty := true } ["echo", "hello"]
        ["echo"] { run := fun _ => ("", none), confirm := fun _ => true } false none
        "") = [] :=
  empty_input_behavior { defaultFlags with noRunEmpty := true } ["hello"] "echo"
    ["echo"] { run := fun _ => ("", none), confirm := fun _ => true } none ""
    (by decide) rfl (by decide)

/-- C3 counterexample: with an empty token sequence and `NoRunEmpty`
unset, the batcher emits zero batches — not one batch holding the base
arguments alone. -/
theorem empty_input_no_base_batch :
    defaultFlags.noRunEmpty = false ∧
      groupArgs defaultFlags [] ["echo"] = [] ∧
      groupArgs defaultFlags [] ["echo"] ≠ [["echo"]] := by
  refine ⟨rfl, rfl, ?_⟩
  decide

/-! ### C9: termination and progress -/

/-- C9 (amended): the grouping operation always terminates, emitting at
most one batch more than there are tokens: every batch except possibly
the last consumes at least one token, and when no token fits a fresh
batch the loop stops at once (dropping the remaining tokens) instead of
forcing a token into the batch. -/
theorem groupLoop_batch_bound (flags : Flags) (baseArgs : List String) :
    ∀ (fuel : Nat) (remaining : List String),
      (groupLoop flags baseArgs fuel remaining).length ≤ remaining.length + 1
  | fuel, [] => by cases fuel <;> simp [groupLoop]
  | 0, r :: rs => by simp [groupLoop]
  | fuel + 1, r :: rs => by
    have ih := groupLoop_batch_bound flags baseArgs fuel
      ((r :: rs).drop (addLoop flags (r :: rs) 0 0).length)
    simp only [groupLoop]
    by_cases hz : (addLoop flags (r :: rs) 0 0).length = 0
    · rw [if_pos hz]
      split <;> simp
    · rw [if_neg hz]
      have hdrop : ((r :: rs).drop (addLoop flags (r :: rs) 0 0).length).length =
          (r :: rs).length - (addLoop flags (r :: rs) 0 0).length :=
        List.length_drop _ _
      have hpos : 0 < (addLoop flags (r :: rs) 0 0).length := Nat.pos_of_ne_zero hz
      rw [List.length_append]
      split <;> simp_all
      omega

/-- C9 (amended), top level: the batch count is bounded by the token
count plus one. -/
theorem groupArgs_batch_bound (flags : Flags) (tokens baseArgs : List String) :
    (groupArgs flags tokens baseArgs).length ≤ tokens.length + 1 :=
  groupLoop_batch_bound flags baseArgs tokens.length tokens

/-- C9 counterexample: with `maxChars := 1` no token can be added to a
fresh batch, yet the loop still emits a batch with zero input tokens and
stops, dropping the remaining token — it does not force a token into the
batch it emits. -/
theorem no_token_forced_cex :
    groupArgs { defaultFlags with maxChars := 1 } ["ab"] ["echo"] = [["echo"]] ∧
      batchTokens ["echo"] ["echo"] = [] := by
  constructor
  · decide
  · rfl

/-! ### C5: placeholder substitution -/

/-- C5 (amended): in the primary engine the `ReplaceStr` setting has no
effect on batching (batches equal those of the configuration with the
placeholder disabled, so input tokens are appended as usual), while in
the line-based variant a non-empty `ReplaceStr` makes the command
arguments the fixed arguments with every occurrence of the placeholder
replaced by the space-joined input tokens, with no tokens appended. -/
theorem replaceStr_behavior (flags : Flags) (fixedArgs inputArgs tokens baseArgs :
    List String) (h : flags.replaceStr ≠ "") :
    groupArgs flags tokens baseArgs =
        groupArgs { flags with replaceStr := "" } tokens baseArgs ∧
      XargsLine.buildCmdArgs flags fixedArgs inputArgs =
        fixedArgs.map
          (fun arg => goReplaceAll arg flags.replaceStr (goJoin inputArgs " ")) := by
  constructor
  · exact groupArgs_congr flags { flags with replaceStr := "" } rfl rfl rfl tokens
      baseArgs
  · simp [XargsLine.buildCmdArgs, h]

/-- C5 witness: a concrete placeholder configuration. -/
theorem replaceStr_behavior_witness :
    groupArgs { defaultFlags with replaceStr := "PH" } ["a", "b"] ["PH"] =
        groupArgs { { defaultFlags with replaceStr := "PH" } with replaceStr := "" }
          ["a", "b"] ["PH"] ∧
      XargsLine.buildCmdArgs { defaultFlags with replaceStr := "PH" } ["x", "PH"]
          ["a", "b"] =
        ["x", "PH"].map
          (fun arg => goReplaceAll arg
            ({ defaultFlags with replaceStr := "PH" } : Flags).replaceStr
            (goJoin ["a", "b"] " ")) :=
  replaceStr_behavior { defaultFlags with replaceStr := "PH" } ["x", "PH"]
    ["a", "b"] ["a", "b"] ["PH"] (by decide)

/-- C5 counterexample: with `ReplaceStr := "PH"` the primary engine still
appends the input tokens to the base arguments and leaves the
placeholder untouched, contradicting the claimed substitution. -/
theorem replaceStr_ignored_by_engine :
    groupArgs { defaultFlags with replaceStr := "PH" } ["a", "b"] ["PH"] =
      [["PH", "a", "b"]] := by decide

/-! ### C6: custom-delimiter tokenization -/

/-- C6 (amended): in custom-delimiter mode the tokenizer splits the
input on the delimiter, discards fragments that are empty before
trimming, and trims each remaining fragment; every produced token is the
trim of some non-empty fragment, but a whitespace-only fragment yields
an empty token. -/
theorem delimiter_tokenization (flags : Flags) (data : String)
    (hND : flags.nullDelim = false) (hD : flags.delimiter ≠ "") :
    readArgs flags data =
        ((goSplit data flags.delimiter).filter (fun part => part ≠ "")).map goTrim ∧
      ∀ t ∈ readArgs flags data, ∃ frag ∈ goSplit data flags.delimiter,
        frag ≠ "" ∧ t = goTrim frag := by
  have hbr : readArgs flags data =
      ((goSplit data flags.delimiter).filter (fun part => part ≠ "")).map goTrim := by
    simp [readArgs, hND, hD]
  refine ⟨hbr, ?_⟩
  intro t ht
  rw [hbr] at ht
  obtain ⟨frag, hfrag, rfl⟩ := List.mem_map.mp ht
  have hf := List.mem_filter.mp hfrag
  exact ⟨frag, hf.1, by simpa using hf.2, rfl⟩

/-- C6 witness: a concrete comma-delimited input. -/
theorem delimiter_tokenization_witness :
    readArgs { defaultFlags with delimiter := "," } "a,b" =
        ((goSplit "a,b" ({ defaultFlags with delimiter := "," } : Flags).delimiter).filter
          (fun part => part ≠ "")).map goTrim ∧
      ∀ t ∈ readArgs { defaultFlags with delimiter := "," } "a,b",
        ∃ frag ∈ goSplit "a,b" ({ defaultFlags with delimiter := "," } : Flags).delimiter,
          frag ≠ "" ∧ t = goTrim frag :=
  delimiter_tokenization { defaultFlags with delimiter := "," } "a,b" rfl (by decide)

/-- C6 counterexample: a whitespace-only fragment is kept (it is
non-empty before trimming) and then trimmed to the empty string, so the
tokenizer does emit an empty token. -/
theorem delimiter_empty_token_cex :
    readArgs { defaultFlags with delimiter := "," } "a, ,b" = ["a", "", "b"] ∧
      "" ∈ readArgs { defaultFlags with delimiter := "," } "a, ,b" := by
  constructor
  · decide
  · decide

/-! ### C7: unresolvable command name -/

/-- C7: if the command name is not in the registry, the run fails
immediately with a command-not-found error: no batch is dispatched and
nothing is written to the output sink. -/
theorem notFound_fail_fast (flags : Flags) (cmdName : String)
    (baseArgs registry : List String) (B : CmdBehavior) (cancelFrom : Option Nat)
    (input : String) (hreg : cmdName ∉ registry) :
    Execute flags (cmdName :: baseArgs) registry B false cancelFrom input =
        ExecResult.earlyErr (XErr.notFound cmdName) ∧
      execInvoked (Execute flags (cmdName :: baseArgs) registry B false cancelFrom
        input) = [] ∧
      execOut (Execute flags (cmdName :: baseArgs) registry B false cancelFrom
        input) = "" := by
  have hrun : Execute flags (cmdName :: baseArgs) registry B false cancelFrom input =
      ExecResult.earlyErr (XErr.notFound cmdName) := by
    simp [Execute, hreg]
  exact ⟨hrun, by rw [hrun]; rfl, by rw [hrun]; rfl⟩

/-- C7 witness: a concrete run against an empty registry. -/
theorem notFound_fail_fast_witness :
    Execute defaultFlags ["nosuch", "x"] ["echo"]
        { run := fun _ => ("", none), confirm := fun _ => true } false none "a b" =
        ExecResult.earlyErr (XErr.notFound "nosuch") ∧
      execInvoked (Execute defaultFlags ["nosuch", "x"] ["echo"]
        { run := fun _ => ("", none), confirm := fun _ => true } false none "a b") =
        [] ∧
      execOut (Execute defaultFlags ["nosuch", "x"] ["echo"]
        { run := fun _ => ("", none), confirm := fun _ => true } false none "a b") =
        "" :=
  notFound_fail_fast defaultFlags "nosuch" ["x"] ["echo"]
    { run := fun _ => ("", none), confirm := fun _ => true } none "a b" (by decide)

/-! ### C8: sequential dispatch and cancellation -/

/-- If the command behind a batch reports no error, neither does the
invocation step (an interactive skip also reports none). -/
theorem executeCommand_err_none (flags : Flags) (B : CmdBehavior) (b : List String)
    (h : (B.run b).2 = none) : (executeCommand flags B b).2.2 = none := by
  simp only [executeCommand]
  split
  · rfl
  · simp [h]

/-- The batches processed by the sequential loop form a prefix of the
batch list: batches run in batch order and none is skipped over. -/
theorem executeSeqLoop_prefix (flags : Flags) (B : CmdBehavior)
    (cancelFrom : Option Nat) :
    ∀ (i : Nat) (bs : List (List String)),
      ∃ m, (executeSeqLoop flags B cancelFrom i bs).processed = bs.take m
  | _, [] => ⟨0, rfl⟩
  | i, b :: rest => by
    cases hcan : cancelledAt cancelFrom i with
    | true => exact ⟨0, by simp [executeSeqLoop, hcan]⟩
    | false =>
      cases hrr : (executeCommand flags B b).2.2 with
      | some e => exact ⟨1, by simp [executeSeqLoop, hcan, hrr]⟩
      | none =>
        obtain ⟨m, hm⟩ := executeSeqLoop_prefix flags B cancelFrom (i + 1) rest
        exact ⟨m + 1, by simp [executeSeqLoop, hcan, hrr, hm]⟩

/-- With the cancellation signal raised from check `k` on, the loop
starting at check `i` processes at most `k - i` batches: the batch due
after the cancellation point is never started. -/
theorem executeSeqLoop_cancel_bound (flags : Flags) (B : CmdBehavior) (k : Nat) :
    ∀ (i : Nat) (bs : List (List String)),
      (executeSeqLoop flags B (some k) i bs).processed.length ≤ k - i
  | i, [] => by simp [executeSeqLoop]
  | i, b :: rest => by
    cases hcan : cancelledAt (some k) i with
    | true => simp [executeSeqLoop, hcan]
    | false =>
      have hik : i < k := by
        simp [cancelledAt] at hcan
        omega
      cases hrr : (executeCommand flags B b).2.2 with
      | some e =>
        simp only [executeSeqLoop, hcan, Bool.false_eq_true, if_false, hrr]
        simp
        omega
      | none =>
        have ih := executeSeqLoop_cancel_bound flags B k (i + 1) rest
        simp only [executeSeqLoop, hcan, Bool.false_eq_true, if_false, hrr]
        simp
        omega

/-- With no command errors and cancellation from check `k` within range,
the loop processes exactly the batches before the cancellation point and
returns the cancellation error. -/
theorem executeSeqLoop_cancel_exact (flags : Flags) (B : CmdBehavior) (k : Nat) :
    ∀ (i : Nat) (bs : List (List String)), (∀ b ∈ bs, (B.run b).2 = none) →
      k - i < bs.length →
      (executeSeqLoop flags B (some k) i bs).processed = bs.take (k - i) ∧
        (executeSeqLoop flags B (some k) i bs).err = some XErr.canceled
  | i, [], h, hlt => by simp at hlt
  | i, b :: rest, h, hlt => by
    cases hcan : cancelledAt (some k) i with
    | true =>
      have hki : k - i = 0 := by
        simp [cancelledAt] at hcan
        omega
      rw [hki]
      simp [executeSeqLoop, hcan]
    | false =>
      have hik : i < k := by
        simp [cancelledAt] at hcan
        omega
      have hrr := executeCommand_err_none flags B b (h b (List.mem_cons_self b rest))
      have ih := executeSeqLoop_cancel_exact flags B k (i + 1) rest
        (fun x hx => h x (List.mem_cons_of_mem b hx))
        (by simp only [List.length_cons] at hlt; omega)
      have hki : k - i = (k - (i + 1)) + 1 := by omega
      rw [hki]
      simp [executeSeqLoop, hcan, hrr, ih.1, ih.2]

/-- With no cancellation and no command errors, every batch is processed
in order and the loop reports success. -/
theorem executeSeqLoop_complete (flags : Flags) (B : CmdBehavior) :
    ∀ (i : Nat) (bs : List (List String)), (∀ b ∈ bs, (B.run b).2 = none) →
      (executeSeqLoop flags B none i bs).processed = bs ∧
        (executeSeqLoop flags B none i bs).err = none
  | _, [], _ => ⟨rfl, rfl⟩
  | i, b :: rest, h => by
    have hrr := executeCommand_err_none flags B b (h b (List.mem_cons_self b rest))
    have ih := executeSeqLoop_complete flags B (i + 1) rest
      (fun x hx => h x (List.mem_cons_of_mem b hx))
    simp [executeSeqLoop, cancelledAt, hrr, ih.1, ih.2]

/-- Cancellation observed at the very first check aborts before any
batch: nothing processed, nothing invoked, cancellation error. -/
theorem executeSeqLoop_cancel_zero (flags : Flags) (B : CmdBehavior)
    (b : List String) (rest : List (List String)) :
    executeSeqLoop flags B (some 0) 0 (b :: rest) =
      { processed := [], invoked := [], out := "", err := some XErr.canceled } := by
  simp [executeSeqLoop, cancelledAt]

/-- Under the sequential condition, the dispatcher takes the sequential
path on a non-empty batch list. -/
theorem executeParallel_seq_of (flags : Flags) (B : CmdBehavior)
    (cancelFrom : Option Nat) (cmdLines : List (List String))
    (hseq : flags.maxProcs ≤ 1 ∨ cmdLines.length ≤ 1) (hne : cmdLines ≠ []) :
    executeParallel flags B cancelFrom cmdLines =
      DispatchResult.seq (executeSeqLoop flags B cancelFrom 0 cmdLines) := by
  have hlen : ¬cmdLines.length = 0 := by
    simpa using hne
  simp only [executeParallel]
  rw [if_neg hlen]
  have hguard : (if flags.maxProcs ≤ 0 then 1 else flags.maxProcs) = 1 ∨
      cmdLines.length = 1 := by
    rcases hseq with h | h
    · left
      split <;> omega
    · right
      omega
  rw [if_pos hguard]

/-- C8: when `maxProcs ≤ 1` or there is at most one batch, the
dispatcher runs sequentially: processed batches form a prefix of the
batch list in batch order; with cancellation from check `k` the batch
after the cancellation point never starts; with no command errors it
aborts there with the cancellation error (and completes error-free when
no cancellation occurs); cancellation at the first check means zero
batches processed and zero commands invoked; and a run whose context is
already cancelled at the start returns the cancellation error with zero
executions. -/
theorem sequential_dispatch (flags : Flags) (B : CmdBehavior)
    (cancelFrom : Option Nat) (cmdLines : List (List String))
    (hseq : flags.maxProcs ≤ 1 ∨ cmdLines.length ≤ 1) :
    ∃ r : SeqResult,
      executeParallel flags B cancelFrom cmdLines = DispatchResult.seq r ∧
      (∃ m, r.processed = cmdLines.take m) ∧
      (∀ k, cancelFrom = some k → r.processed.length ≤ k) ∧
      (∀ k, cancelFrom = some k → k < cmdLines.length →
        (∀ b ∈ cmdLines, (B.run b).2 = none) →
        r.processed = cmdLines.take k ∧ r.err = some XErr.canceled) ∧
      (cancelFrom = none → (∀ b ∈ cmdLines, (B.run b).2 = none) →
        r.processed = cmdLines ∧ r.err = none) ∧
      (cancelFrom = some 0 → r.processed = [] ∧ r.invoked = [] ∧
        (cmdLines ≠ [] → r.err = some XErr.canceled)) ∧
      (∀ (positional registry : List String) (input : String),
        Execute flags positional registry B true cancelFrom input =
          ExecResult.earlyErr XErr.canceled) := by
  cases cmdLines with
  | nil =>
    refine ⟨{ processed := [], invoked := [], out := "", err := none }, rfl,
      ⟨0, rfl⟩, ?_, ?_, ?_, ?_, ?_⟩
    · intro k _
      simp
    · intro k _ hk
      simp at hk
    · intro _ _
      exact ⟨rfl, rfl⟩
    · intro _
      exact ⟨rfl, rfl, fun h => absurd rfl h⟩
    · intro positional registry input
      simp [Execute]
  | cons b rest =>
    refine ⟨executeSeqLoop flags B cancelFrom 0 (b :: rest),
      executeParallel_seq_of flags B cancelFrom (b :: rest) hseq (by simp), ?_, ?_,
      ?_, ?_, ?_, ?_⟩
    · exact executeSeqLoop_prefix flags B cancelFrom 0 (b :: rest)
    · intro k hk
      subst hk
      have := executeSeqLoop_cancel_bound flags B k 0 (b :: rest)
      omega
    · intro k hk hklt hnoerr
      subst hk
      have := executeSeqLoop_cancel_exact flags B k 0 (b :: rest) hnoerr
        (by omega)
      simpa using this
    · intro hk hnoerr
      subst hk
      exact executeSeqLoop_complete flags B 0 (b :: rest) hnoerr
    · intro hk
      subst hk
      rw [executeSeqLoop_cancel_zero flags B b rest]
      exact ⟨rfl, rfl, fun _ => rfl⟩
    · intro positional registry input
      simp [Execute]

/-- C8 witness: a concrete two-batch sequential run with cancellation
raised from the second check on. -/
theorem sequential_dispatch_witness :
    ∃ r : SeqResult,
      executeParallel { defaultFlags with maxProcs := 1 }
          { run := fun _ => ("", none), confirm := fun _ => true } (some 1)
          [["a"], ["b"]] = DispatchResult.seq r ∧
      (∃ m, r.processed = [["a"], ["b"]].take m) ∧
      (∀ k, (some 1 : Option Nat) = some k → r.processed.length ≤ k) ∧
      (∀ k, (some 1 : Option Nat) = some k → k < ([["a"], ["b"]] :
          List (List String)).length →
        (∀ b ∈ ([["a"], ["b"]] : List (List String)),
          (({ run := fun _ => ("", none), confirm := fun _ => true } :
            CmdBehavior).run b).2 = none) →
        r.processed = [["a"], ["b"]].take k ∧ r.err = some XErr.canceled) ∧
      ((some 1 : Option Nat) = none →
        (∀ b ∈ ([["a"], ["b"]] : List (List String)),
          (({ run := fun _ => ("", none), confirm := fun _ => true } :
            CmdBehavior).run b).2 = none) →
        r.processed = [["a"], ["b"]] ∧ r.err = none) ∧
      ((some 1 : Option Nat) = some 0 → r.processed = [] ∧ r.invoked = [] ∧
        (([["a"], ["b"]] : List (List String)) ≠ [] →
          r.err = some XErr.canceled)) ∧
      (∀ (positional registry : List String) (input : String),
        Execute { defaultFlags with maxProcs := 1 } positional registry
            { run := fun _ => ("", none), confirm := fun _ => true } true (some 1)
            input = ExecResult.earlyErr XErr.canceled) :=
  sequential_dispatch { defaultFlags with maxProcs := 1 }
    { run := fun _ => ("", none), confirm := fun _ => true } (some 1)
    [["a"], ["b"]] (Or.inl (by decide))

end Xargs

/-! Sanity checks of the embedding against the scenarios exercised by
the repository's tests: whitespace and delimiter tokenization, and the
`maxArgs = 2` batching of three tokens. -/
example : Xargs.goSplit "a,b,c" "," = ["a", "b", "c"] := by decide
example : Xargs.goTrim "  a b " = "a b" := by decide
example : Xargs.strLen "abc" = 3 := by decide
example : Xargs.readArgs Xargs.defaultFlags "a b\nc" = ["a", "b", "c"] := by decide
example :
    Xargs.readArgs { Xargs.defaultFlags with nullDelim := true } "a\x00b\x00c" =
      ["a", "b", "c"] := by decide
example :
    Xargs.groupArgs { Xargs.defaultFlags with maxArgs := 2 } ["a", "b", "c"] [] =
      [["a", "b"], ["c"]] := by decide
